import Mathlib

/-!
Verification of the `rift` snapshot replication engine.

This file gives a shallow embedding of the algorithmic core of the
repository (`src/rift/snapshots.py`, `src/rift/datasets.py`,
`src/rift/replication.py`, `src/rift/commands.py`) and proves the
specified properties about it.

Modelling conventions:
* Python `int` becomes `Int`, strings become `String`.
* A `Dataset` is the in-memory view the algorithms consume: the backend's
  snapshot/bookmark listings, the existence flag and the resume token.
  `Dataset.snapshots`/`Dataset.bookmarks` sort the backend listing
  ascending by `createtxg` exactly as `datasets.py` does with Python's
  stable `sorted`; Mathlib's `List.insertionSort` with a non-strict total
  preorder is extensionally the same stable sort.
* `re.compile(p).match(s)` (anchored at the start, not at the end) is
  modelled by a derivative-based matcher `Regex.rmatch` over a regex AST.
* Effectful functions return an `Except` describing the raised error, and
  transfer functions return the list of streams handed to the pipeline
  runner, which is their only observable effect here.
-/

namespace Rift

/-- A ZFS snapshot, from `snapshots.py`: fully qualified name
`dataset@name`, the `guid` property and the `createtxg` property. -/
structure Snapshot where
  fqn : String
  guid : String
  createtxg : Int
deriving DecidableEq, Repr

/-- A ZFS bookmark, from `snapshots.py`: fully qualified name
`dataset#name`, the `guid` property and the `createtxg` property. -/
structure Bookmark where
  fqn : String
  guid : String
  createtxg : Int
deriving DecidableEq, Repr

/-- Python `fqn.split(sep)[1]`: the segment strictly between the first
separator and the following separator (or the end of the string).
For a name without the separator the Python code would raise; such names
do not occur for well-formed snapshot/bookmark fqns. -/
def shortName (sep : Char) (fqn : String) : String :=
  ⟨(((fqn.data.dropWhile (fun c => c ≠ sep)).drop 1).takeWhile (fun c => c ≠ sep))⟩

/-- `Snapshot.name` property: `fqn.split("@")[1]`. -/
def Snapshot.name (s : Snapshot) : String := shortName '@' s.fqn

/-- `Bookmark.name` property: `fqn.split("#")[1]`. -/
def Bookmark.name (b : Bookmark) : String := shortName '#' b.fqn

/-- A source-side reference: either a snapshot or a bookmark
(the `Snapshot | Bookmark` union used by `ancestor` and by the
incremental send shape). -/
inductive SnapRef where
  | snap (s : Snapshot)
  | book (b : Bookmark)
deriving DecidableEq, Repr

def SnapRef.guid : SnapRef → String
  | .snap s => s.guid
  | .book b => b.guid

def SnapRef.createtxg : SnapRef → Int
  | .snap s => s.createtxg
  | .book b => b.createtxg

/-- `isinstance(s, Snapshot)` used as the tie-break key in `ancestor`. -/
def SnapRef.isSnap : SnapRef → Bool
  | .snap _ => true
  | .book _ => false

/-! ## Regex engine

`sync` and `prune` filter snapshot names with `re.compile(p).match(name)`,
which is anchored at the start of the string but not at its end.  We model
the regular-expression core with Brzozowski derivatives:
`acceptsChars` is whole-string acceptance and `matchHere` is
"some prefix of the input is accepted", which is exactly the truthiness of
Python's `re.match`. -/

inductive Regex where
  | emp
  | eps
  | chr (c : Char)
  | dot
  | seq (a b : Regex)
  | alt (a b : Regex)
  | star (a : Regex)
deriving DecidableEq, Repr

def Regex.nullable : Regex → Bool
  | .emp => false
  | .eps => true
  | .chr _ => false
  | .dot => false
  | .seq a b => a.nullable && b.nullable
  | .alt a b => a.nullable || b.nullable
  | .star _ => true

def Regex.deriv : Regex → Char → Regex
  | .emp, _ => .emp
  | .eps, _ => .emp
  | .chr c, d => if c = d then .eps else .emp
  | .dot, _ => .eps
  | .seq a b, d => if a.nullable then .alt (.seq (a.deriv d) b) (b.deriv d) else .seq (a.deriv d) b
  | .alt a b, d => .alt (a.deriv d) (b.deriv d)
  | .star a, d => .seq (a.deriv d) (.star a)

/-- Whole-input acceptance. -/
def Regex.acceptsChars : Regex → List Char → Bool
  | r, [] => r.nullable
  | r, c :: cs => (r.deriv c).acceptsChars cs

/-- Does the pattern accept some (possibly empty) leading segment of the
input?  This is the truthiness of Python's `re.match`. -/
def Regex.matchHere : Regex → List Char → Bool
  | r, [] => r.nullable
  | r, c :: cs => r.nullable || (r.deriv c).matchHere cs

/-- `re.compile(r).match(s)` truthiness: match anchored at the start. -/
def Regex.rmatch (r : Regex) (s : String) : Bool := r.matchHere s.data

/-- `re.fullmatch` for contrast: the whole name must be accepted. -/
def Regex.fullmatch (r : Regex) (s : String) : Bool := r.acceptsChars s.data

/-- A literal pattern (each character matching itself). -/
def Regex.lit (s : String) : Regex :=
  s.data.foldr (fun c acc => .seq (.chr c) acc) .eps

/-! ## Dataset handles

`datasets.py` `Dataset.snapshots()`/`bookmarks()` return the backend
listing sorted ascending by `createtxg` with Python's stable `sorted`. -/

/-- The sort relation used for snapshot listings: ascending `createtxg`. -/
def snapLE (a b : Snapshot) : Prop := a.createtxg ≤ b.createtxg

instance : DecidableRel snapLE := fun a b => Int.decLe a.createtxg b.createtxg

instance : IsTotal Snapshot snapLE := ⟨fun a b => Int.le_total a.createtxg b.createtxg⟩

instance : IsTrans Snapshot snapLE := ⟨fun _ _ _ h h' => le_trans h h'⟩

/-- The sort relation used for bookmark listings: ascending `createtxg`. -/
def bookLE (a b : Bookmark) : Prop := a.createtxg ≤ b.createtxg

instance : DecidableRel bookLE := fun a b => Int.decLe a.createtxg b.createtxg

instance : IsTotal Bookmark bookLE := ⟨fun a b => Int.le_total a.createtxg b.createtxg⟩

instance : IsTrans Bookmark bookLE := ⟨fun _ _ _ h h' => le_trans h h'⟩

/-- The in-memory view of a dataset consumed by the replication
algorithms: the backend's raw listings plus existence and resume state. -/
structure Dataset where
  fqn : String
  existsb : Bool
  backendSnapshots : List Snapshot
  backendBookmarks : List Bookmark
  resumeToken : Option String
deriving DecidableEq, Repr

/-- `Dataset.snapshots()`: backend listing sorted ascending by
`createtxg` (stable). -/
def Dataset.snapshots (d : Dataset) : List Snapshot :=
  d.backendSnapshots.insertionSort snapLE

/-- `Dataset.bookmarks()`: backend listing sorted ascending by
`createtxg` (stable). -/
def Dataset.bookmarks (d : Dataset) : List Bookmark :=
  d.backendBookmarks.insertionSort bookLE

/-! ## Ancestor resolver (`replication.ancestor`) -/

/-- The candidate sort relation of `ancestor`: Python
`sorted(candidates, key=lambda s: (s.createtxg, isinstance(s, Snapshot)))`,
i.e. lexicographic on `(createtxg, isSnap)` with `false < true`. -/
def candLE (a b : SnapRef) : Prop :=
  a.createtxg < b.createtxg ∨ (a.createtxg = b.createtxg ∧ (a.isSnap → b.isSnap = true))

instance : DecidableRel candLE := fun a b => by unfold candLE; infer_instance

instance : IsTotal SnapRef candLE := by
  constructor
  intro a b
  rcases lt_trichotomy a.createtxg b.createtxg with h | h | h
  · exact Or.inl (Or.inl h)
  · rcases Bool.eq_false_or_eq_true b.isSnap with hb | hb
    · exact Or.inl (Or.inr ⟨h, fun _ => hb⟩)
    · rcases Bool.eq_false_or_eq_true a.isSnap with ha | ha
      · exact Or.inr (Or.inr ⟨h.symm, fun _ => ha⟩)
      · exact Or.inl (Or.inr ⟨h, by simp [ha]⟩)
  · exact Or.inr (Or.inl h)

instance : IsTrans SnapRef candLE := by
  constructor
  rintro a b c (h₁ | ⟨h₁, h₁'⟩) (h₂ | ⟨h₂, h₂'⟩)
  · exact Or.inl (lt_trans h₁ h₂)
  · exact Or.inl (h₂ ▸ h₁)
  · exact Or.inl (h₁ ▸ h₂)
  · exact Or.inr ⟨h₁.trans h₂, fun h => h₂' (h₁' h)⟩

/-- `replication.ancestor(snapshot, source, target)`: among source
snapshots and bookmarks strictly older than `snapshot` (by `createtxg`),
sorted by `(createtxg, isSnapshot)` and scanned from newest to oldest,
return the first whose guid occurs among the target's snapshot guids. -/
def ancestor (snapshot : Snapshot) (source target : Dataset) : Option SnapRef :=
  let candidates :=
    ((source.snapshots.map SnapRef.snap) ++ (source.bookmarks.map SnapRef.book)).filter
      (fun s => decide (s.createtxg < snapshot.createtxg))
  let sortedCands := candidates.insertionSort candLE
  let targetGuids := target.snapshots.map Snapshot.guid
  sortedCands.reverse.find? (fun s => decide (s.guid ∈ targetGuids))

/-! ## Transfer engine (`replication.send`) -/

/-- The three send-stream shapes of `datasets.Backend.send` /
`zfs.ZfsBackend.send`. -/
inductive StreamShape where
  | full (snap : Snapshot)
  | resume (token : String)
  | incremental (snap : Snapshot) (base : SnapRef)
deriving DecidableEq, Repr

/-- `replication.send(snapshot, source, target)`.  The observable
behaviour is the raised error or the list of streams built and handed to
`target.recv` (each stream results in exactly one pipeline-runner
invocation); the skip branch builds none. -/
def send (snapshot : Snapshot) (source target : Dataset) :
    Except String (List StreamShape) :=
  -- check if snapshot exists in source
  if ¬ (snapshot.guid ∈ source.snapshots.map Snapshot.guid) then
    .error ("snapshot '" ++ snapshot.fqn ++ "' not in source '" ++ source.fqn ++ "'")
  -- if the target dataset does not exist, send full snapshot
  else if target.existsb = false then
    .ok [.full snapshot]
  -- if the snapshot already exists on the target, skip send
  else if snapshot.guid ∈ target.snapshots.map Snapshot.guid then
    .ok []
  else
    match target.resumeToken with
    -- if the snapshot is resumable, resume send
    | some token => .ok [.resume token]
    | none =>
      match ancestor snapshot source target with
      -- if a common ancestor exists, send incremental snapshot
      | some base => .ok [.incremental snapshot base]
      -- send full snapshot otherwise
      | none => .ok [.full snapshot]

/-! ## Sync diff engine (`replication.sync`) -/

/-- `replication.sync(source, target, regex=r)` up to (and excluding) the
send loop: the raised error, or the ordered list of snapshots passed one
at a time to the transfer engine `send`. -/
def syncPlan (source target : Dataset) (r : Regex) : Except String (List Snapshot) :=
  let toSync : Except String (List Snapshot) :=
    -- if the target dataset does not exist or is empty, send all snapshots
    if target.existsb = false ∨ target.snapshots.length = 0 then
      .ok source.snapshots
    else
      match target.snapshots.getLast? with
      | none => .ok source.snapshots  -- unreachable: the listing is nonempty here
      | some latestTarget =>
        -- find all snapshots in source that are not in target
        let missing := source.snapshots.filter
          (fun s => decide (s.guid ∉ target.snapshots.map Snapshot.guid))
        -- find the target's latest snapshot in source by comparing guids
        match source.snapshots.find? (fun s => s.guid == latestTarget.guid) with
        | none =>
          .error ("latest snapshot on target '" ++ latestTarget.guid ++
            "' not found in source '" ++ source.fqn ++ "'")
        | some latest =>
          -- sync only snapshots newer than the latest snapshot on target
          .ok (missing.filter (fun s => decide (latest.createtxg < s.createtxg)))
  -- filter out snapshots that do not match the regex pattern
  toSync.map (fun l => l.filter (fun s => r.rmatch s.name))

/-! ## Retention engine (`replication.prune`) -/

/-- The snapshots of the listing whose short name matches the pattern
(`[s for s in dataset.snapshots() if p.match(s.name)]`). -/
def matchedSnapshots (dataset : Dataset) (r : Regex) : List Snapshot :=
  dataset.snapshots.filter (fun s => r.rmatch s.name)

/-- One `(regex, keep)` rule of `prune`: snapshots of the listing whose
name matches the pattern, minus the retained tail `snapshots[-keep:]`
(none retained when `keep <= 0`), as a list of short names. -/
def pruneRule (dataset : Dataset) (r : Regex) (keep : Int) : List String :=
  let snapshots := matchedSnapshots dataset r
  let retain := if 0 < keep then snapshots.drop (snapshots.length - keep.toNat) else []
  (snapshots.filter (fun s => decide (s ∉ retain))).map Snapshot.name

/-- The accumulated obsolete list of `prune`: the per-rule lists
concatenated in policy order (Python `obsolete += destroy`). -/
def pruneObsolete (dataset : Dataset) : List (Regex × Int) → List String
  | [] => []
  | (r, keep) :: rest => pruneRule dataset r keep ++ pruneObsolete dataset rest

/-- One invocation of `Dataset.destroy(names, dry_run)`. -/
structure DestroyCall where
  names : List String
  dryRun : Bool
deriving DecidableEq, Repr

/-- Modelled from the spec: `dry_run` mode must not invoke the
destructive operation — `zfs.ZfsBackend.destroy` adds `-n -v` to the
`zfs destroy` command line under `dry_run`, and the external `zfs`
tool destroys nothing when given `-n`. -/
def DestroyCall.destroyed (c : DestroyCall) : List String :=
  if c.dryRun then [] else c.names

/-- `replication.prune(dataset, policy, dry_run)`: the list of
`Dataset.destroy` invocations it performs (always exactly one, at the
end, with the accumulated obsolete list). -/
def prune (dataset : Dataset) (policy : List (Regex × Int)) (dryRun : Bool) :
    List DestroyCall :=
  [⟨pruneObsolete dataset policy, dryRun⟩]

/-! ## Pipeline runner (`commands.SystemRunner.main`)

The runner spawns one OS process per stage, forwards the byte streams,
and concurrently watches every stage's stderr; `stderr_watch` raises as
soon as a stage's stderr, stripped of whitespace, is nonempty — exit
codes are never consulted.  The functional model below abstracts a run in
which spawning and forwarding succeed: each stage is characterised by its
command line, the text it wrote to stderr, its exit code and (for the
final stage) its stdout lines.  The observable result is the first
stderr-failure (in stage order, matching the task-creation order of the
`stderr_watch` tasks) or the joined, stripped stdout of the final
stage. -/

/-- ASCII whitespace stripping, as `bytes.strip()` used on the stderr
output and `str.strip()` used on the captured stdout. -/
def pyStrip (s : String) : String :=
  let ws : Char → Bool := fun c =>
    c = ' ' || c = '\t' || c = '\n' || c = '\r' || c = '\x0b' || c = '\x0c'
  ⟨(((s.data.dropWhile ws).reverse).dropWhile ws).reverse⟩

/-- One pipeline stage of a `SystemRunner.main` run. -/
structure Stage where
  cmd : List String
  stderrText : String
  exitCode : Int
  stdoutLines : List String
deriving DecidableEq, Repr

/-- `commands.SubprocessError(message, cmd)`. -/
structure SubprocessError where
  message : String
  cmd : List String
deriving DecidableEq, Repr

/-- The full captured output of a run: the final stage's stdout lines
joined and stripped (`"".join(output).strip()`). -/
def runnerOutput (stages : List Stage) : String :=
  pyStrip (String.join (((stages.getLast?).map Stage.stdoutLines).getD []))

/-- `SystemRunner.main`: fail with the first stage whose stripped stderr
is nonempty (regardless of exit codes), otherwise return the full
stripped output of the final stage. -/
def runnerMain (stages : List Stage) : Except SubprocessError String :=
  match stages.find? (fun st => pyStrip st.stderrText ≠ "") with
  | some st => .error ⟨st.stderrText, st.cmd⟩
  | none => .ok (runnerOutput stages)

/-! ## Helper lemmas -/

lemma find?_split {α} {p : α → Bool} {l : List α} {a : α} (h : l.find? p = some a) :
    p a = true ∧ ∃ l₁ l₂, l = l₁ ++ a :: l₂ ∧ ∀ x ∈ l₁, p x = false := by
  induction l with
  | nil => simp [List.find?] at h
  | cons b bs ih =>
    rw [List.find?] at h
    rcases hb : p b with _ | _
    · rw [hb] at h
      obtain ⟨hpa, l₁, l₂, hsplit, hfail⟩ := ih h
      refine ⟨hpa, b :: l₁, l₂, by simp [hsplit], ?_⟩
      intro x hx
      rcases List.mem_cons.mp hx with rfl | hx
      · exact hb
      · exact hfail x hx
    · rw [hb] at h
      obtain rfl : b = a := by simpa using h
      exact ⟨hb, [], bs, by simp, by simp⟩

lemma sorted_getLast_max {α} {r : α → α → Prop} (hrefl : ∀ a, r a a) :
    ∀ (l : List α), l.Sorted r → ∀ (x : α), l.getLast? = some x → ∀ y ∈ l, r y x := by
  intro l
  induction l with
  | nil => intro _ x hx; simp at hx
  | cons a as ih =>
    intro hs x hx y hy
    rcases as with _ | ⟨b, bs⟩
    · simp only [List.getLast?_singleton, Option.some.injEq] at hx
      simp only [List.mem_singleton] at hy
      subst hx; subst hy; exact hrefl _
    · rw [List.getLast?_cons_cons] at hx
      rcases List.mem_cons.mp hy with rfl | hy
      · obtain ⟨hne, rfl⟩ := List.mem_getLast?_eq_getLast (Option.mem_def.mpr hx)
        exact List.rel_of_sorted_cons hs _ (List.getLast_mem hne)
      · exact ih hs.of_cons x hx y hy

lemma find?_guid_unique {l : List Snapshot} {g : String} {latest : Snapshot}
    (huniq : (l.map Snapshot.guid).Nodup) (hmem : latest ∈ l) (hg : latest.guid = g) :
    l.find? (fun s => s.guid == g) = some latest := by
  induction l with
  | nil => simp at hmem
  | cons a as ih =>
    rw [List.map_cons, List.nodup_cons] at huniq
    rcases List.mem_cons.mp hmem with rfl | hmem
    · rw [List.find?]
      simp [hg]
    · have hne : a.guid ≠ g := by
        intro hag
        exact huniq.1 (hag ▸ hg ▸ List.mem_map_of_mem Snapshot.guid hmem)
      have hbeq : (a.guid == g) = false := by simpa using hne
      rw [List.find?, hbeq]
      exact ih huniq.2 hmem

lemma matchHere_iff_accepted_segment (r : Regex) (cs : List Char) :
    r.matchHere cs = true ↔ ∃ k, k ≤ cs.length ∧ r.acceptsChars (cs.take k) = true := by
  induction cs generalizing r with
  | nil =>
    simp only [Regex.matchHere, List.length_nil, Nat.le_zero, List.take_nil]
    constructor
    · intro h; exact ⟨0, rfl, h⟩
    · rintro ⟨k, rfl, h⟩; exact h
  | cons c cs ih =>
    simp only [Regex.matchHere, Bool.or_eq_true, ih]
    constructor
    · rintro (h | ⟨k, hk, hacc⟩)
      · exact ⟨0, Nat.zero_le _, h⟩
      · exact ⟨k + 1, Nat.succ_le_succ hk, hacc⟩
    · rintro ⟨k, hk, hacc⟩
      cases k with
      | zero => exact Or.inl hacc
      | succ k =>
        exact Or.inr ⟨k, Nat.le_of_succ_le_succ hk, hacc⟩

/-! ## Claim theorems -/

/-- Claim C1: when the snapshot's guid is already present in the target
dataset's listing (and the guid is in the source listing and the target
exists), `send` is a pure no-op: it returns without building any stream,
so the pipeline runner is invoked zero times. -/
theorem send_skip_already_on_target (snapshot : Snapshot) (source target : Dataset)
    (hsrc : snapshot.guid ∈ source.snapshots.map Snapshot.guid)
    (htgt : snapshot.guid ∈ target.snapshots.map Snapshot.guid)
    (hex : target.existsb = true) :
    send snapshot source target = .ok [] := by
  unfold send
  rw [if_neg (by simpa using hsrc), if_neg (by simp [hex]), if_pos htgt]

/-- Fixtures used by the witness theorems. -/
def wS1 : Snapshot := ⟨"src/a@s1", "g1", 1⟩

def wS2 : Snapshot := ⟨"src/a@s2", "g2", 2⟩

def wB1 : Bookmark := ⟨"src/a#s1", "g1", 1⟩

def wSrc : Dataset := ⟨"src/a", true, [wS1, wS2], [wB1], none⟩

def wTgt : Dataset := ⟨"tgt/a", true, [⟨"tgt/a@s1", "g1", 1⟩], [], none⟩

theorem send_skip_already_on_target_witness :
    wS1.guid ∈ wSrc.snapshots.map Snapshot.guid ∧
    wS1.guid ∈ wTgt.snapshots.map Snapshot.guid ∧
    wTgt.existsb = true ∧
    send wS1 wSrc wTgt = .ok [] :=
  ⟨by decide, by decide, by decide,
    send_skip_already_on_target wS1 wSrc wTgt (by decide) (by decide) (by decide)⟩

/-- Claim C6: when the target exists, the snapshot's guid is absent from
the target and the target reports a resume token, `send` builds the
resume-shaped stream from that token; the ancestor resolver is never
consulted, so the result is independent of the source's bookmarks. -/
theorem send_resume_skips_ancestor (snapshot : Snapshot) (source target : Dataset)
    (token : String)
    (hsrc : snapshot.guid ∈ source.snapshots.map Snapshot.guid)
    (hex : target.existsb = true)
    (htgt : snapshot.guid ∉ target.snapshots.map Snapshot.guid)
    (htok : target.resumeToken = some token) :
    send snapshot source target = .ok [.resume token] ∧
    ∀ bms : List Bookmark,
      send snapshot { source with backendBookmarks := bms } target = .ok [.resume token] := by
  have hmain : ∀ src' : Dataset, snapshot.guid ∈ src'.snapshots.map Snapshot.guid →
      send snapshot src' target = .ok [.resume token] := by
    intro src' hsrc'
    unfold send
    rw [if_neg (by simpa using hsrc'), if_neg (by simp [hex]), if_neg htgt, htok]
  refine ⟨hmain source hsrc, fun bms => hmain _ ?_⟩
  show snapshot.guid ∈ (Dataset.snapshots ⟨source.fqn, source.existsb,
    source.backendSnapshots, bms, source.resumeToken⟩).map Snapshot.guid
  simpa [Dataset.snapshots] using hsrc

theorem send_resume_skips_ancestor_witness :
    wS2.guid ∈ wSrc.snapshots.map Snapshot.guid ∧
    wS2.guid ∉ wTgt.snapshots.map Snapshot.guid ∧
    send wS2 wSrc { wTgt with resumeToken := some "tok" } = .ok [.resume "tok"] ∧
    send wS2 { wSrc with backendBookmarks := [] } { wTgt with resumeToken := some "tok" } =
      .ok [.resume "tok"] := by
  have h := send_resume_skips_ancestor wS2 wSrc { wTgt with resumeToken := some "tok" } "tok"
    (by decide) (by decide) (by decide) (by decide)
  exact ⟨by decide, by decide, h.1, h.2 []⟩

/-- Claim C7: the pipeline runner's result ignores every stage's exit
code; whenever some stage's stderr is nonempty after stripping
whitespace, the runner fails with an error (so the final stage's captured
output is discarded); and a successful result is always the full stripped
output of the final stage, never a truncated one. -/
theorem runner_stderr_aborts :
    (∀ (stages : List Stage) (f : Stage → Int),
        runnerMain (stages.map (fun st => { st with exitCode := f st })) = runnerMain stages)
    ∧ (∀ stages : List Stage, (∃ st ∈ stages, pyStrip st.stderrText ≠ "") →
        ∃ e, runnerMain stages = .error e)
    ∧ (∀ (stages : List Stage) (out : String),
        runnerMain stages = .ok out → out = runnerOutput stages) := by
  refine ⟨?_, ?_, ?_⟩
  · intro stages f
    unfold runnerMain
    rw [List.find?_map]
    cases hf : stages.find? (fun st => pyStrip st.stderrText ≠ "") with
    | none =>
      have : stages.find? ((fun st => decide ¬pyStrip st.stderrText = "") ∘
          (fun st => { st with exitCode := f st })) = none := by
        rw [List.find?_eq_none] at hf ⊢
        exact fun x hx => hf x hx
      rw [this]
      simp only [Option.map_none]
      unfold runnerOutput
      rw [List.getLast?_map]
      cases stages.getLast? <;> rfl
    | some st =>
      have : stages.find? ((fun st => decide ¬pyStrip st.stderrText = "") ∘
          (fun st => { st with exitCode := f st })) = some st := hf
      rw [this]
      rfl
  · intro stages h
    obtain ⟨st, hmem, hne⟩ := h
    unfold runnerMain
    cases hf : stages.find? (fun st => pyStrip st.stderrText ≠ "") with
    | none =>
      rw [List.find?_eq_none] at hf
      exact absurd (of_decide_eq_true (by simpa using hf st hmem)) (by simpa using hne)
    | some st' => exact ⟨⟨st'.stderrText, st'.cmd⟩, rfl⟩
  · intro stages out h
    unfold runnerMain at h
    cases hf : stages.find? (fun st => pyStrip st.stderrText ≠ "") with
    | none => rw [hf] at h; exact (Except.ok.inj h).symm
    | some st' => rw [hf] at h; exact absurd h (by simp)

def wStageBad : Stage := ⟨["zfs", "send"], " warning: oops \n", 0, []⟩

def wStageOk : Stage := ⟨["zfs", "receive"], "", 1, ["ok\n", "done"]⟩

theorem runner_stderr_aborts_witness :
    (∃ st ∈ [wStageBad, wStageOk], pyStrip st.stderrText ≠ "") ∧
    (∃ e, runnerMain [wStageBad, wStageOk] = .error e) ∧
    runnerMain [wStageOk] = .ok "ok\ndone" ∧
    "ok\ndone" = runnerOutput [wStageOk] ∧
    runnerMain ([wStageBad].map (fun st => { st with exitCode := 7 })) =
      runnerMain [wStageBad] := by
  refine ⟨⟨wStageBad, by decide, by decide⟩,
    runner_stderr_aborts.2.1 [wStageBad, wStageOk] ⟨wStageBad, by decide, by decide⟩,
    by rfl,
    runner_stderr_aborts.2.2 [wStageOk] "ok\ndone" (by rfl),
    runner_stderr_aborts.1 [wStageBad] (fun _ => 7)⟩

/-- Claim C2: for an existing non-empty target whose newest
(`createtxg`-maximal, i.e. last in the sorted listing) snapshot has a guid
matched by no source snapshot, `sync` raises the inconsistent-target
error before any snapshot is handed to the transfer engine: the plan is
an error carrying no snapshot list, so zero transfers are performed and
no stream is built. -/
theorem sync_inconsistent_target (source target : Dataset) (r : Regex) (lt : Snapshot)
    (hex : target.existsb = true)
    (hlast : target.snapshots.getLast? = some lt)
    (hnone : ∀ s ∈ source.snapshots, s.guid ≠ lt.guid) :
    syncPlan source target r =
      .error ("latest snapshot on target '" ++ lt.guid ++ "' not found in source '" ++
        source.fqn ++ "'") ∧
    ∀ s ∈ target.snapshots, s.createtxg ≤ lt.createtxg := by
  constructor
  · have hne : ¬ target.snapshots.length = 0 := by
      intro h0
      rw [List.length_eq_zero] at h0
      rw [h0] at hlast
      simp at hlast
    have hfind : source.snapshots.find? (fun s => s.guid == lt.guid) = none := by
      rw [List.find?_eq_none]
      intro x hx
      simpa using hnone x hx
    unfold syncPlan
    rw [if_neg (by simp [hex, hne]), hlast]
    dsimp only
    rw [hfind]
    rfl
  · intro s hs
    have hsorted : List.Sorted snapLE target.snapshots :=
      List.sorted_insertionSort snapLE target.backendSnapshots
    exact sorted_getLast_max (r := snapLE) (fun a => le_refl a.createtxg)
      target.snapshots hsorted lt hlast s hs

def wTgtAlien : Dataset := ⟨"tgt/a", true, [⟨"tgt/a@x", "gX", 5⟩], [], none⟩

theorem sync_inconsistent_target_witness :
    wTgtAlien.snapshots.getLast? = some ⟨"tgt/a@x", "gX", 5⟩ ∧
    (∀ s ∈ wSrc.snapshots, s.guid ≠ "gX") ∧
    syncPlan wSrc wTgtAlien (Regex.star Regex.dot) =
      .error "latest snapshot on target 'gX' not found in source 'src/a'" :=
  ⟨by decide, by decide,
    (sync_inconsistent_target wSrc wTgtAlien (Regex.star Regex.dot) ⟨"tgt/a@x", "gX", 5⟩
      (by decide) (by decide) (by decide)).1⟩

/-- Claim C4: whenever the ancestor resolver returns a reference, that
reference's `createtxg` is strictly below the target snapshot's
`createtxg` (so never `>=` it) and its guid appears among the target
dataset's snapshot guids; otherwise it returns none. -/
theorem ancestor_only_strictly_older (snapshot : Snapshot) (source target : Dataset)
    (r : SnapRef) (h : ancestor snapshot source target = some r) :
    r.createtxg < snapshot.createtxg ∧
    ¬ snapshot.createtxg ≤ r.createtxg ∧
    r.guid ∈ target.snapshots.map Snapshot.guid := by
  unfold ancestor at h
  have hp := List.find?_some h
  have hmem := List.mem_of_find?_eq_some h
  rw [List.mem_reverse, List.mem_insertionSort, List.mem_filter] at hmem
  have hlt : r.createtxg < snapshot.createtxg := of_decide_eq_true hmem.2
  exact ⟨hlt, not_le_of_lt hlt, of_decide_eq_true hp⟩

theorem ancestor_only_strictly_older_witness :
    ancestor wS2 wSrc wTgt = some (.snap wS1) ∧
    (SnapRef.snap wS1).createtxg < wS2.createtxg ∧
    (SnapRef.snap wS1).guid ∈ wTgt.snapshots.map Snapshot.guid :=
  ⟨by decide,
    (ancestor_only_strictly_older wS2 wSrc wTgt (.snap wS1) (by decide)).1,
    (ancestor_only_strictly_older wS2 wSrc wTgt (.snap wS1) (by decide)).2.2⟩

lemma filter_not_mem_drop {l tk dp : List Snapshot} (hnd : l.Nodup) (n : Nat)
    (htk : tk = l.take n) (hdp : dp = l.drop n) :
    l.filter (fun s => decide (s ∉ dp)) = tk := by
  have hdisj : List.Disjoint (l.take n) (l.drop n) :=
    List.disjoint_take_drop hnd (le_refl n)
  conv_lhs => rw [← List.take_append_drop n l]
  rw [List.filter_append]
  have h1 : (l.take n).filter (fun s => decide (s ∉ dp)) = l.take n :=
    List.filter_eq_self.mpr (fun a ha => decide_eq_true (fun hmem => hdisj ha (hdp ▸ hmem)))
  have h2 : (l.drop n).filter (fun s => decide (s ∉ dp)) = [] := by
    rw [List.filter_eq_nil_iff]
    intro a ha
    simp [hdp ▸ ha]
  rw [h1, h2, List.append_nil, htk]

/-- Claim C8: a single `(pattern, keep = N)` rule with `M >= N` matches
retains exactly the `N` newest (greatest `createtxg`) matches and marks
exactly the `M - N` oldest matches obsolete; `keep <= 0` marks all `M`
matches obsolete; and `prune` performs the same selection for both values
of `dry_run`, with the dry-run destroy invocation destroying nothing. -/
theorem prune_retention (d : Dataset) (r : Regex) (N : Nat) (keep : Int)
    (hnd : d.snapshots.Nodup) :
    (keep = (N : Int) → 0 < N → N ≤ (matchedSnapshots d r).length →
      pruneRule d r keep =
        ((matchedSnapshots d r).take ((matchedSnapshots d r).length - N)).map Snapshot.name ∧
      ∀ s ∈ (matchedSnapshots d r).take ((matchedSnapshots d r).length - N),
        ∀ t ∈ (matchedSnapshots d r).drop ((matchedSnapshots d r).length - N),
          s.createtxg ≤ t.createtxg) ∧
    (keep ≤ 0 → pruneRule d r keep = (matchedSnapshots d r).map Snapshot.name) ∧
    (∀ dr : Bool, prune d [(r, keep)] dr = [⟨pruneRule d r keep, dr⟩]) ∧
    DestroyCall.destroyed ⟨pruneRule d r keep, true⟩ = [] := by
  have hndm : (matchedSnapshots d r).Nodup := List.Nodup.filter _ hnd
  have hsorted : List.Sorted snapLE (matchedSnapshots d r) :=
    List.Sorted.filter _ (List.sorted_insertionSort snapLE d.backendSnapshots)
  refine ⟨?_, ?_, ?_, rfl⟩
  · rintro rfl hpos hle
    constructor
    · unfold pruneRule
      dsimp only
      rw [if_pos (by exact_mod_cast hpos)]
      rw [Int.toNat_natCast]
      rw [filter_not_mem_drop hndm ((matchedSnapshots d r).length - N) rfl rfl]
    · intro s hs t ht
      exact hsorted.rel_of_mem_take_of_mem_drop hs ht
  · intro hle
    unfold pruneRule
    dsimp only
    rw [if_neg (by omega)]
    have : (matchedSnapshots d r).filter (fun s => decide (s ∉ ([] : List Snapshot))) =
        matchedSnapshots d r :=
      List.filter_eq_self.mpr (fun a _ => by simp)
    rw [this]
  · intro dr
    show [DestroyCall.mk (pruneRule d r keep ++ pruneObsolete d []) dr] = _
    rw [show pruneObsolete d [] = [] from rfl, List.append_nil]

def wPd : Dataset :=
  ⟨"d", true, [⟨"d@w3", "h3", 3⟩, ⟨"d@w1", "h1", 1⟩, ⟨"d@w2", "h2", 2⟩], [], none⟩

theorem prune_retention_witness :
    wPd.snapshots.Nodup ∧
    pruneRule wPd (Regex.lit "w") 1 = ["w1", "w2"] ∧
    pruneRule wPd (Regex.lit "w") 0 = ["w1", "w2", "w3"] ∧
    prune wPd [(Regex.lit "w", 1)] true = [⟨["w1", "w2"], true⟩] ∧
    DestroyCall.destroyed ⟨["w1", "w2"], true⟩ = [] := by
  have h := prune_retention wPd (Regex.lit "w") 1 1 (by decide)
  have h0 := prune_retention wPd (Regex.lit "w") 0 0 (by decide)
  refine ⟨by decide, ?_, ?_, ?_, h.2.2.2⟩
  · rw [(h.1 (by decide) (by decide) (by decide)).1]
    decide
  · rw [h0.2.1 (by decide)]
    decide
  · rw [h.2.2.1 true, (h.1 (by decide) (by decide) (by decide)).1]
    decide

lemma pruneRule_sublist_obsolete (d : Dataset) {r : Regex} {keep : Int}
    {policy : List (Regex × Int)} (h : (r, keep) ∈ policy) :
    List.Sublist (pruneRule d r keep) (pruneObsolete d policy) := by
  induction policy with
  | nil => simp at h
  | cons p rest ih =>
    obtain ⟨r₀, k₀⟩ := p
    rcases List.mem_cons.mp h with heq | h
    · obtain ⟨rfl, rfl⟩ := Prod.mk.injEq .. ▸ heq
      exact List.sublist_append_left _ _
    · exact (ih h).trans (List.sublist_append_right _ _)

lemma count_pruneObsolete (d : Dataset) (policy : List (Regex × Int)) (n : String) :
    (pruneObsolete d policy).count n =
      (policy.map (fun rule => (pruneRule d rule.1 rule.2).count n)).sum := by
  induction policy with
  | nil => rfl
  | cons p rest ih =>
    obtain ⟨r₀, k₀⟩ := p
    simp only [pruneObsolete, List.count_append, List.map_cons, List.sum_cons, ih]

/-- Claim C9 as amended: `prune` invokes the dataset's destroy operation
exactly once, passing the concatenation (not the deduplicated union) of
the per-rule obsolete name lists: each rule's list occurs as a sublist of
the single batch, and a name marked obsolete by several rules appears
once per marking rule. -/
theorem prune_single_destroy_concat (d : Dataset) (policy : List (Regex × Int)) (dr : Bool) :
    (prune d policy dr).length = 1 ∧
    ∀ c ∈ prune d policy dr,
      c.names = pruneObsolete d policy ∧
      c.dryRun = dr ∧
      (∀ r keep, (r, keep) ∈ policy → List.Sublist (pruneRule d r keep) c.names) ∧
      (∀ n : String, c.names.count n =
        (policy.map (fun rule => (pruneRule d rule.1 rule.2).count n)).sum) := by
  refine ⟨rfl, ?_⟩
  intro c hc
  obtain rfl : c = ⟨pruneObsolete d policy, dr⟩ := List.mem_singleton.mp hc
  exact ⟨rfl, rfl, fun r keep h => pruneRule_sublist_obsolete d h,
    fun n => count_pruneObsolete d policy n⟩

def wDup : Dataset := ⟨"tank/data", true, [⟨"tank/data@ab", "gA", 1⟩], [], none⟩

/-- Claim C9, counterexample to the claim as stated: with two rules both
matching the single snapshot `ab` (patterns `a` and `ab`, both with
`keep = 0`), the one destroy invocation receives the name `ab` twice, not
once. -/
theorem prune_duplicate_counterexample :
    prune wDup [(Regex.lit "a", 0), (Regex.lit "ab", 0)] false =
      [⟨["ab", "ab"], false⟩] ∧
    ∀ c ∈ prune wDup [(Regex.lit "a", 0), (Regex.lit "ab", 0)] false,
      ¬ c.names.count "ab" = 1 := by decide

theorem prune_single_destroy_concat_witness :
    (prune wDup [(Regex.lit "a", 0), (Regex.lit "ab", 0)] true).length = 1 ∧
    ∀ c ∈ prune wDup [(Regex.lit "a", 0), (Regex.lit "ab", 0)] true,
      c.names = pruneObsolete wDup [(Regex.lit "a", 0), (Regex.lit "ab", 0)] ∧
      List.Sublist (pruneRule wDup (Regex.lit "ab") 0) c.names :=
  ⟨(prune_single_destroy_concat wDup _ true).1, fun c hc =>
    ⟨((prune_single_destroy_concat wDup _ true).2 c hc).1,
      ((prune_single_destroy_concat wDup _ true).2 c hc).2.2.1 (Regex.lit "ab") 0
        (by simp)⟩⟩

def wDaily : Dataset := ⟨"d", true, [⟨"d@daily_backup", "g9", 1⟩], [], none⟩

/-- Claim C10: the name filters of `sync` and `prune` select a snapshot
exactly when the pattern accepts some leading segment of its short name
(`re.match`: anchored at the start, not at the end); in particular the
literal pattern `daily` selects a snapshot named `daily_backup`, which
whole-name matching would reject. -/
theorem name_filter_matches_at_start :
    (∀ (d : Dataset) (r : Regex) (s : Snapshot),
        s ∈ matchedSnapshots d r ↔ s ∈ d.snapshots ∧ r.rmatch s.name = true) ∧
    (∀ (r : Regex) (nm : String), r.rmatch nm = true ↔
        ∃ k, k ≤ nm.data.length ∧ r.acceptsChars (nm.data.take k) = true) ∧
    ((Regex.lit "daily").rmatch "daily_backup" = true ∧
      (Regex.lit "daily").fullmatch "daily_backup" = false) ∧
    matchedSnapshots wDaily (Regex.lit "daily") = wDaily.snapshots ∧
    syncPlan wDaily ⟨"tgt", false, [], [], none⟩ (Regex.lit "daily") =
      .ok wDaily.snapshots := by
  refine ⟨?_, ?_, ⟨by decide, by decide⟩, by decide, by rfl⟩
  · intro d r s
    exact List.mem_filter
  · intro r nm
    exact matchHere_iff_accepted_segment r nm.data

theorem name_filter_matches_at_start_witness :
    (⟨"d@daily_backup", "g9", 1⟩ : Snapshot) ∈ matchedSnapshots wDaily (Regex.lit "daily") ∧
    (Regex.lit "daily").rmatch "daily_backup" = true :=
  ⟨(name_filter_matches_at_start.1 wDaily (Regex.lit "daily") _).mpr ⟨by decide, by decide⟩,
    (name_filter_matches_at_start.2.1 (Regex.lit "daily") "daily_backup").mpr
      ⟨5, by decide, by decide⟩⟩

/-- The candidates the spec describes for `sync` on a non-empty target,
written from the claim's words for comparison with `syncPlan`: source
snapshots whose guid is absent from the target, whose `createtxg`
strictly exceeds that of the source snapshot matching the target's newest
snapshot, and whose name matches the pattern, in source-listing
(ascending `createtxg`) order. -/
def syncSpecCandidates (source target : Dataset) (latest : Snapshot) (r : Regex) :
    List Snapshot :=
  source.snapshots.filter (fun s =>
    (decide (s.guid ∉ target.snapshots.map Snapshot.guid) &&
      decide (latest.createtxg < s.createtxg)) && r.rmatch s.name)

/-- Claim C3: for an existing target with at least one snapshot (and a
source whose guids are unique and contain the guid of the target's newest
snapshot, held by `latest`), the snapshots `sync` passes to the transfer
engine are exactly the source snapshots missing from the target, newer
than `latest`, and matching the pattern, in ascending `createtxg`
order. -/
theorem sync_plan_exactly_newer_missing (source target : Dataset) (r : Regex)
    (lt latest : Snapshot)
    (hex : target.existsb = true)
    (hlast : target.snapshots.getLast? = some lt)
    (huniq : (source.snapshots.map Snapshot.guid).Nodup)
    (hmem : latest ∈ source.snapshots)
    (hg : latest.guid = lt.guid) :
    syncPlan source target r = .ok (syncSpecCandidates source target latest r) ∧
    List.Sorted snapLE (syncSpecCandidates source target latest r) ∧
    (∀ s ∈ syncSpecCandidates source target latest r,
        s ∈ source.snapshots ∧ s.guid ∉ target.snapshots.map Snapshot.guid ∧
        latest.createtxg < s.createtxg ∧ r.rmatch s.name = true) ∧
    (∀ s ∈ source.snapshots, s.guid ∉ target.snapshots.map Snapshot.guid →
        latest.createtxg < s.createtxg → r.rmatch s.name = true →
        s ∈ syncSpecCandidates source target latest r) := by
  have hne : ¬ target.snapshots.length = 0 := by
    intro h0
    rw [List.length_eq_zero] at h0
    rw [h0] at hlast
    simp at hlast
  refine ⟨?_, ?_, ?_, ?_⟩
  · unfold syncPlan
    rw [if_neg (by simp [hex, hne]), hlast]
    dsimp only
    rw [find?_guid_unique huniq hmem hg]
    unfold syncSpecCandidates
    simp only [Except.map, List.filter_filter]
    congr 1
    apply List.filter_congr
    intro a _
    cases h1 : decide (a.guid ∉ target.snapshots.map Snapshot.guid) <;>
      cases h2 : decide (latest.createtxg < a.createtxg) <;>
      cases h3 : r.rmatch a.name <;>
      simp [h1, h2, h3]
  · exact List.Sorted.filter _ (List.sorted_insertionSort snapLE source.backendSnapshots)
  · intro s hs
    rw [syncSpecCandidates, List.mem_filter] at hs
    have h := hs.2
    simp only [Bool.and_eq_true, decide_eq_true_eq] at h
    exact ⟨hs.1, h.1.1, h.1.2, h.2⟩
  · intro s hmems habsent hnewer hmatch
    rw [syncSpecCandidates, List.mem_filter]
    refine ⟨hmems, ?_⟩
    simp only [Bool.and_eq_true, decide_eq_true_eq]
    exact ⟨⟨habsent, hnewer⟩, hmatch⟩

theorem sync_plan_exactly_newer_missing_witness :
    wTgt.snapshots.getLast? = some ⟨"tgt/a@s1", "g1", 1⟩ ∧
    wS1 ∈ wSrc.snapshots ∧
    syncPlan wSrc wTgt (Regex.star Regex.dot) =
      .ok (syncSpecCandidates wSrc wTgt wS1 (Regex.star Regex.dot)) ∧
    syncSpecCandidates wSrc wTgt wS1 (Regex.star Regex.dot) = [wS2] := by
  have h := sync_plan_exactly_newer_missing wSrc wTgt (Regex.star Regex.dot)
    ⟨"tgt/a@s1", "g1", 1⟩ wS1 (by decide) (by decide) (by decide) (by decide) (by decide)
  exact ⟨by decide, by decide, h.1, by decide⟩

lemma find?_reverse_sorted_rel {α} {R : α → α → Prop} {p : α → Bool} {l : List α}
    (hsort : l.Pairwise R) {rr : α} (hfind : l.reverse.find? p = some rr)
    {x : α} (hx : x ∈ l) (hpx : p x = true) :
    x = rr ∨ R x rr := by
  obtain ⟨hprr, l₁, l₂, hsplit, hfail⟩ := find?_split hfind
  have hxmem : x ∈ l₁ ++ rr :: l₂ := by
    rw [← hsplit, List.mem_reverse]
    exact hx
  rcases List.mem_append.mp hxmem with hx1 | hx2
  · exact absurd hpx (by simp [hfail x hx1])
  · rcases List.mem_cons.mp hx2 with rfl | hx2
    · exact Or.inl rfl
    · right
      have hl : l = l₂.reverse ++ rr :: l₁.reverse := by
        have h := congrArg List.reverse hsplit
        simpa [List.reverse_append, List.append_assoc] using h
      rw [hl] at hsort
      exact (List.pairwise_append.mp hsort).2.2 x (List.mem_reverse.mpr hx2) rr
        (List.mem_cons_self rr _)

/-- Claim C5: when the candidate pool contains a Snapshot `S` and a
Bookmark `B` of equal `createtxg` (both strictly older than the target
snapshot and both with guids present on the target), the ancestor
resolver returns some reference, never the Bookmark `B`; any returned
reference is at least as new as `S`, and if it sits at exactly that
`createtxg` it is a Snapshot — at equal `createtxg` a Snapshot is
preferred over a Bookmark. -/
theorem ancestor_equal_txg_snapshot_preferred (snapshot : Snapshot) (source target : Dataset)
    (S : Snapshot) (B : Bookmark)
    (hS : S ∈ source.snapshots) (_hB : B ∈ source.bookmarks)
    (heq : (SnapRef.book B).createtxg = S.createtxg)
    (hSold : S.createtxg < snapshot.createtxg)
    (hSg : S.guid ∈ target.snapshots.map Snapshot.guid)
    (_hBg : B.guid ∈ target.snapshots.map Snapshot.guid) :
    (∃ rr, ancestor snapshot source target = some rr) ∧
    ancestor snapshot source target ≠ some (SnapRef.book B) ∧
    (∀ rr, ancestor snapshot source target = some rr →
      S.createtxg ≤ rr.createtxg ∧ (rr.createtxg = S.createtxg → rr.isSnap = true)) := by
  have hsrt := List.sorted_insertionSort candLE
    (((source.snapshots.map SnapRef.snap) ++ (source.bookmarks.map SnapRef.book)).filter
      (fun s => decide (s.createtxg < snapshot.createtxg)))
  have hmemS : SnapRef.snap S ∈
      ((((source.snapshots.map SnapRef.snap) ++ (source.bookmarks.map SnapRef.book)).filter
        (fun s => decide (s.createtxg < snapshot.createtxg))).insertionSort candLE) := by
    rw [List.mem_insertionSort, List.mem_filter]
    exact ⟨List.mem_append_left _ (List.mem_map_of_mem SnapRef.snap hS), by simpa using hSold⟩
  have hpS : (fun s : SnapRef => decide (s.guid ∈ target.snapshots.map Snapshot.guid))
      (SnapRef.snap S) = true := decide_eq_true hSg
  have h3 : ∀ rr, ancestor snapshot source target = some rr →
      S.createtxg ≤ rr.createtxg ∧ (rr.createtxg = S.createtxg → rr.isSnap = true) := by
    intro rr hr
    unfold ancestor at hr
    dsimp only at hr
    rcases find?_reverse_sorted_rel hsrt hr hmemS hpS with rfl | hrel
    · exact ⟨le_refl _, fun _ => rfl⟩
    · rcases hrel with hlt | ⟨heq', himp⟩
      · exact ⟨le_of_lt hlt, fun hback => absurd (hback ▸ hlt) (lt_irrefl _)⟩
      · exact ⟨le_of_eq heq', fun _ => himp rfl⟩
  have hexist : ∃ rr, ancestor snapshot source target = some rr := by
    cases hf : ancestor snapshot source target with
    | none =>
      exfalso
      unfold ancestor at hf
      dsimp only at hf
      rw [List.find?_eq_none] at hf
      exact absurd hpS (by simpa using hf _ (List.mem_reverse.mpr hmemS))
    | some rr => exact ⟨rr, rfl⟩
  refine ⟨hexist, ?_, h3⟩
  intro hcontra
  have hsnap := (h3 _ hcontra).2 heq
  simp [SnapRef.isSnap] at hsnap

theorem ancestor_equal_txg_snapshot_preferred_witness :
    wS1 ∈ wSrc.snapshots ∧ wB1 ∈ wSrc.bookmarks ∧
    (SnapRef.book wB1).createtxg = wS1.createtxg ∧
    (∃ rr, ancestor wS2 wSrc wTgt = some rr) ∧
    ancestor wS2 wSrc wTgt ≠ some (SnapRef.book wB1) ∧
    ancestor wS2 wSrc wTgt = some (SnapRef.snap wS1) := by
  have h := ancestor_equal_txg_snapshot_preferred wS2 wSrc wTgt wS1 wB1
    (by decide) (by decide) (by decide) (by decide) (by decide) (by decide)
  exact ⟨by decide, by decide, by decide, h.1, h.2.1, by decide⟩

end Rift
